import Mathlib

/-!
Shallow embedding of the homework-classification pipeline of
`check_homework.py` (roster matching, duplicate detection, MD5 content
grouping) and proofs of its specified properties.

Modelling conventions:
* Python strings are Lean `String`s; the regex class `\d` is modelled as
  ASCII decimal digits (`Char.isDigit`).
* File contents (byte buffers) are `List Nat`.
* The MD5 primitive (`hashlib.md5`, an external library call inside
  `calculate_bytes_md5`) is an abstract parameter `md5 : List Nat → String`;
  collision-freedom is an explicit hypothesis where a claim needs it.
* Python `dict`s are association lists in key-insertion order: updating an
  existing key keeps its position, a new key is appended at the end.
* The per-file wall-clock sample `datetime.datetime.now()` is an input: the
  classifier receives one `Nat` timestamp per file, in processing order.
-/

namespace CheckHomework

/-- `winAt l i = true` iff positions `i .. i+8` of `l` exist and are all
decimal digits: a 9-character digit window starting at `i`. -/
def winAt (l : List Char) (i : Nat) : Bool :=
  decide (9 ≤ (l.drop i).length) && ((l.drop i).take 9).all Char.isDigit

/-- `tenAt l i = true` iff positions `i .. i+9` of `l` exist and are all
decimal digits: a 10-character digit window, i.e. a digit run longer than 9
starts at or before `i`. -/
def tenAt (l : List Char) (i : Nat) : Bool :=
  decide (10 ≤ (l.drop i).length) && ((l.drop i).take 10).all Char.isDigit

/-- Leftmost-match search for `\d{9}`: scan positions left to right and
return the 9 digits at the first position where a 9-digit window starts.
This is the matching discipline of Python's `re.search(r'\d{9}', s)`. -/
def findNine : List Char → Option (List Char)
  | [] => none
  | c :: cs => if winAt (c :: cs) 0 then some ((c :: cs).take 9) else findNine cs

/-- `extract_id` from `check_homework.py` line 14: `re.search(r'\d{9}', filename)`,
returning the matched text, or `None` when there is no match. -/
def extract_id (s : String) : Option String :=
  (findNine s.data).map fun cs => String.mk cs

theorem winAt_cons_succ (c : Char) (cs : List Char) (i : Nat) :
    winAt (c :: cs) (i + 1) = winAt cs i := by
  simp [winAt]

theorem winAt_nil (i : Nat) : winAt [] i = false := by
  simp [winAt]

theorem winAt_false_of_ge (l : List Char) (i : Nat) (h : l.length ≤ i) :
    winAt l i = false := by
  simp only [winAt, Bool.and_eq_false_iff, decide_eq_false_iff_not, not_le]
  left
  simp [List.length_drop]
  omega

theorem findNine_eq_none_iff (l : List Char) :
    findNine l = none ↔ ∀ i, winAt l i = false := by
  induction l with
  | nil =>
    simp only [findNine, true_iff]
    exact fun i => winAt_nil i
  | cons c cs ih =>
    constructor
    · intro h i
      have h0 : winAt (c :: cs) 0 = false := by
        by_contra hc
        have ht : winAt (c :: cs) 0 = true := by
          revert hc; cases winAt (c :: cs) 0 <;> simp
        simp [findNine, ht] at h
      cases i with
      | zero => exact h0
      | succ j =>
        rw [winAt_cons_succ]
        have hcs : findNine cs = none := by simpa [findNine, h0] using h
        exact (ih.mp hcs) j
    · intro h
      have h0 : winAt (c :: cs) 0 = false := h 0
      simp only [findNine, h0, Bool.false_eq_true, if_false]
      exact ih.mpr fun i => by rw [← winAt_cons_succ c]; exact h (i + 1)

theorem findNine_eq_some (l : List Char) (i : Nat) (h : winAt l i = true)
    (hmin : ∀ j < i, winAt l j = false) :
    findNine l = some ((l.drop i).take 9) := by
  induction l generalizing i with
  | nil => rw [winAt_nil] at h; exact absurd h (by simp)
  | cons c cs ih =>
    cases i with
    | zero =>
      simp only [findNine, h, if_true, List.drop_zero]
    | succ j =>
      have h0 : winAt (c :: cs) 0 = false := hmin 0 (Nat.succ_pos j)
      simp only [findNine, h0, Bool.false_eq_true, if_false]
      rw [List.drop_succ_cons]
      refine ih j ?_ ?_
      · rw [← winAt_cons_succ c]; exact h
      · intro k hk
        rw [← winAt_cons_succ c]
        exact hmin (k + 1) (by omega)

theorem extract_id_eq_none_iff (s : String) :
    extract_id s = none ↔ ∀ i < s.data.length, winAt s.data i = false := by
  have hbase : extract_id s = none ↔ findNine s.data = none := by
    unfold extract_id
    cases findNine s.data <;> simp
  rw [hbase, findNine_eq_none_iff]
  constructor
  · intro h i _; exact h i
  · intro h i
    by_cases hi : i < s.data.length
    · exact h i hi
    · exact winAt_false_of_ge _ _ (by omega)

theorem extract_id_eq_some (s : String) (i : Nat) (h : winAt s.data i = true)
    (hmin : ∀ j < i, winAt s.data j = false) :
    extract_id s = some (String.mk ((s.data.drop i).take 9)) := by
  unfold extract_id
  rw [findNine_eq_some s.data i h hmin]
  rfl

/-- An uploaded homework file as the loop at line 84 sees it: a filename
(`uploaded_file.name`), the byte content (`uploaded_file.getvalue()`) and a
declared size (`uploaded_file.size`). -/
structure UpFile where
  name : String
  content : List Nat
  size : Nat
deriving DecidableEq, Repr

/-- The per-file record `file_info` built at lines 96–102: name, the
wall-clock sample `now`, the lateness flag `now > deadline`, the MD5 hex
digest and the size. -/
structure FileInfo where
  name : String
  time : Nat
  is_late : Bool
  md5 : String
  size : Nat
deriving DecidableEq, Repr

/-- The `analysis` container initialised at lines 77–81: `valid` maps a
student id to its submissions, `unknown` collects unmatched files,
`similarity` maps an MD5 digest to the files bearing it.  Python `dict`s are
association lists in key-insertion order. -/
structure Analysis where
  valid : List (String × List FileInfo)
  unknown : List FileInfo
  similarity : List (String × List FileInfo)
deriving DecidableEq, Repr

/-- `m[k].append(v)` preceded by `if k not in m: m[k] = []` on a Python dict:
an existing key keeps its position and gets `v` appended to its list, a new
key is appended at the end with the singleton list. -/
def dictAppend {β : Type} (m : List (String × List β)) (k : String) (v : β) :
    List (String × List β) :=
  match m with
  | [] => [(k, [v])]
  | (k', l) :: rest =>
    if k' = k then (k', l ++ [v]) :: rest else (k', l) :: dictAppend rest k v

/-- Builds `file_info` for one uploaded file (lines 93–102): `now` is the
wall-clock sample taken for this file, `is_late` is `now > deadline`, and the
digest field is `calculate_bytes_md5(file_bytes)`, i.e. the abstract hasher
applied to the content. -/
def mkFileInfo (md5 : List Nat → String) (deadline now : Nat) (f : UpFile) :
    FileInfo :=
  { name := f.name, time := now, is_late := decide (deadline < now),
    md5 := md5 f.content, size := f.size }

/-- The body of the `for uploaded_file in uploaded_homeworks` loop
(lines 84–114) for one file paired with its wall-clock sample: route the file
into `unknown` or `valid[sid]` according to `extract_id` and roster
membership, then append it to `similarity[md5]`. -/
def classifyStep (md5 : List Nat → String) (roster : List (String × String))
    (deadline : Nat) (a : Analysis) (p : UpFile × Nat) : Analysis :=
  let fi := mkFileInfo md5 deadline p.2 p.1
  let a1 :=
    match extract_id p.1.name with
    | none => { a with unknown := a.unknown ++ [fi] }
    | some sid =>
      if (roster.map Prod.fst).contains sid then
        { a with valid := dictAppend a.valid sid fi }
      else
        { a with unknown := a.unknown ++ [fi] }
  { a1 with similarity := dictAppend a1.similarity fi.md5 fi }

/-- The whole classification loop of lines 77–114: fold `classifyStep` over
the uploaded files, each paired with the `datetime.datetime.now()` sample
taken while processing it, starting from the empty `analysis` container. -/
def classify (md5 : List Nat → String) (roster : List (String × String))
    (files : List UpFile) (times : List Nat) (deadline : Nat) : Analysis :=
  (files.zip times).foldl (classifyStep md5 roster deadline) ⟨[], [], []⟩

/-- The routing decision of line 104: `some sid` when the filename yields an
id that is a roster key (the file goes to `valid[sid]`), `none` when the id
is absent or unknown (the file goes to `unknown`). -/
def matchKey (roster : List (String × String)) (nm : String) : Option String :=
  match extract_id nm with
  | none => none
  | some sid => if (roster.map Prod.fst).contains sid then some sid else none

/-- The `file_info` records of a batch in processing order. -/
def infosOf (md5 : List Nat → String) (deadline : Nat)
    (inputs : List (UpFile × Nat)) : List FileInfo :=
  inputs.map fun p => mkFileInfo md5 deadline p.2 p.1

/-- Line 120: `int(submitted_count / total_count * 100) if total_count > 0 else 0`.
The guarded Python float expression is modelled with exact natural-number
arithmetic (floor division); the claims only use the exact `else` branch. -/
def percent (roster : List (String × String)) (a : Analysis) : Nat :=
  if 0 < roster.length then a.valid.length * 100 / roster.length else 0

/-- Line 133: `sorted(list(all_roster_ids - set(analysis["valid"].keys())))` —
the roster ids with no submission group, sorted ascending. -/
def missing_ids (roster : List (String × String)) (a : Analysis) : List String :=
  (((roster.map Prod.fst).filter
      fun id => !((a.valid.map Prod.fst).contains id)).mergeSort
    fun a b => decide (a ≤ b))

/-- Line 151: `f = f_list[-1]` — the single representative file shown for a
student is the last element of the student's submission list. -/
def representative (l : List FileInfo) : Option FileInfo :=
  l.getLast?

/-- The selection policy in the words of the spec (§4.4): every `file_info`
of this code carries a resolved timestamp, so the policy picks the file with
the maximum timestamp (the earliest such file on ties). -/
def specMostRecent : List FileInfo → Option FileInfo
  | [] => none
  | f :: rest => some (rest.foldl (fun b x => if b.time < x.time then x else b) f)

/-- Append to an optional group: `none` stands for an absent dict key. -/
def optApp : Option (List FileInfo) → List FileInfo → Option (List FileInfo)
  | o, [] => o
  | none, l => some l
  | some l0, l => some (l0 ++ l)

theorem optApp_nil (o : Option (List FileInfo)) : optApp o [] = o := by
  cases o <;> rfl

theorem optApp_cons (o : Option (List FileInfo)) (x : FileInfo) (l : List FileInfo) :
    optApp (optApp o [x]) l = optApp o (x :: l) := by
  cases o <;> cases l <;> simp [optApp]

theorem lookup_dictAppend_self (m : List (String × List FileInfo)) (k : String)
    (v : FileInfo) :
    (dictAppend m k v).lookup k = some (((m.lookup k).getD []) ++ [v]) := by
  induction m with
  | nil => simp [dictAppend, List.lookup]
  | cons q rest ih =>
    obtain ⟨k1, l1⟩ := q
    by_cases h : k1 = k
    · subst h
      simp [dictAppend, List.lookup]
    · have hb : (k == k1) = false := beq_eq_false_iff_ne.mpr fun hh => h hh.symm
      simp [dictAppend, h, List.lookup, hb, ih]

theorem lookup_dictAppend_ne (m : List (String × List FileInfo)) (k k' : String)
    (v : FileInfo) (h : k' ≠ k) :
    (dictAppend m k v).lookup k' = m.lookup k' := by
  have hb : (k' == k) = false := beq_eq_false_iff_ne.mpr h
  induction m with
  | nil => simp [dictAppend, List.lookup, hb]
  | cons q rest ih =>
    obtain ⟨k1, l1⟩ := q
    by_cases h1 : k1 = k
    · subst h1
      simp [dictAppend, List.lookup, hb]
    · cases hk : (k' == k1) <;> simp [dictAppend, h1, List.lookup, hk, ih]

theorem lookup_mem {β : Type} (m : List (String × β)) (k : String) (v : β)
    (h : m.lookup k = some v) : (k, v) ∈ m := by
  induction m with
  | nil => simp [List.lookup] at h
  | cons q rest ih =>
    obtain ⟨k1, v1⟩ := q
    cases hk : (k == k1) with
    | false =>
      simp only [List.lookup, hk] at h
      exact List.mem_cons_of_mem _ (ih h)
    | true =>
      simp only [List.lookup, hk] at h
      have hk1 : k = k1 := by simpa using hk
      subst hk1
      simp only [Option.some.injEq] at h
      subst h
      exact List.mem_cons_self _ _

/-- `dictAppend` preserves any per-entry property that the appended value
satisfies at its key. -/
theorem dictAppend_inv (P : String → FileInfo → Prop)
    (m : List (String × List FileInfo)) (k : String) (v : FileInfo)
    (hm : ∀ q ∈ m, ∀ fi ∈ q.2, P q.1 fi) (hv : P k v) :
    ∀ q ∈ dictAppend m k v, ∀ fi ∈ q.2, P q.1 fi := by
  induction m with
  | nil =>
    intro q hq fi hfi
    simp only [dictAppend, List.mem_singleton] at hq
    subst hq
    simp only [List.mem_singleton] at hfi
    subst hfi
    exact hv
  | cons q1 rest ih =>
    obtain ⟨k1, l1⟩ := q1
    by_cases h1 : k1 = k
    · subst h1
      intro q hq fi hfi
      simp only [dictAppend, if_pos trivial, eq_self_iff_true, List.mem_cons] at hq
      rcases hq with hq | hq
      · subst hq
        simp only [List.mem_append, List.mem_singleton] at hfi
        rcases hfi with hfi | hfi
        · exact hm _ (List.mem_cons_self _ _) _ hfi
        · subst hfi
          exact hv
      · exact hm _ (List.mem_cons_of_mem _ hq) _ hfi
    · intro q hq fi hfi
      simp only [dictAppend, if_neg h1, List.mem_cons] at hq
      rcases hq with hq | hq
      · subst hq
        exact hm _ (List.mem_cons_self _ _) _ hfi
      · exact ih (fun q2 hq2 => hm q2 (List.mem_cons_of_mem _ hq2)) q hq _ hfi

theorem optApp_single (o : Option (List FileInfo)) (x : FileInfo) :
    optApp o [x] = some (o.getD [] ++ [x]) := by
  cases o <;> rfl

theorem classifyStep_valid (md5 : List Nat → String) (roster : List (String × String))
    (deadline : Nat) (a : Analysis) (p : UpFile × Nat) :
    (classifyStep md5 roster deadline a p).valid
      = match matchKey roster p.1.name with
        | some sid => dictAppend a.valid sid (mkFileInfo md5 deadline p.2 p.1)
        | none => a.valid := by
  simp only [classifyStep, matchKey]
  cases he : extract_id p.1.name with
  | none => rfl
  | some sid =>
    by_cases hc : (roster.map Prod.fst).contains sid = true
    · simp only [if_pos hc]
    · simp only [if_neg hc]

theorem classifyStep_unknown (md5 : List Nat → String) (roster : List (String × String))
    (deadline : Nat) (a : Analysis) (p : UpFile × Nat) :
    (classifyStep md5 roster deadline a p).unknown
      = match matchKey roster p.1.name with
        | some _ => a.unknown
        | none => a.unknown ++ [mkFileInfo md5 deadline p.2 p.1] := by
  simp only [classifyStep, matchKey]
  cases he : extract_id p.1.name with
  | none => rfl
  | some sid =>
    by_cases hc : (roster.map Prod.fst).contains sid = true
    · simp only [if_pos hc]
    · simp only [if_neg hc]

theorem classifyStep_similarity (md5 : List Nat → String) (roster : List (String × String))
    (deadline : Nat) (a : Analysis) (p : UpFile × Nat) :
    (classifyStep md5 roster deadline a p).similarity
      = dictAppend a.similarity (mkFileInfo md5 deadline p.2 p.1).md5
          (mkFileInfo md5 deadline p.2 p.1) := by
  simp only [classifyStep]
  cases he : extract_id p.1.name with
  | none => rfl
  | some sid =>
    by_cases hc : (roster.map Prod.fst).contains sid = true
    · simp only [if_pos hc]
    · simp only [if_neg hc]

/-- The files accumulated in `unknown` are exactly the input files the
routing test of line 104 rejects, in arrival order. -/
theorem classify_unknown_aux (md5 : List Nat → String) (roster : List (String × String))
    (deadline : Nat) (inputs : List (UpFile × Nat)) (a : Analysis) :
    (inputs.foldl (classifyStep md5 roster deadline) a).unknown
      = a.unknown ++ (infosOf md5 deadline inputs).filter
          (fun fi => (matchKey roster fi.name).isNone) := by
  induction inputs generalizing a with
  | nil => simp [infosOf]
  | cons p rest ih =>
    rw [List.foldl_cons, ih]
    have hname : (mkFileInfo md5 deadline p.2 p.1).name = p.1.name := rfl
    cases h : matchKey roster p.1.name with
    | none =>
      rw [classifyStep_unknown]
      simp [h, infosOf, List.filter_cons, hname]
    | some sid =>
      rw [classifyStep_unknown]
      simp [h, infosOf, List.filter_cons, hname]

/-- The submission group of key `k` is exactly the list of input files the
routing test sends to `k`, in arrival order (`none` when there are none and
`k` was absent initially). -/
theorem classify_valid_lookup_aux (md5 : List Nat → String)
    (roster : List (String × String)) (deadline : Nat)
    (inputs : List (UpFile × Nat)) (a : Analysis) (k : String) :
    ((inputs.foldl (classifyStep md5 roster deadline) a).valid).lookup k
      = optApp (a.valid.lookup k)
          ((infosOf md5 deadline inputs).filter
            (fun fi => decide (matchKey roster fi.name = some k))) := by
  induction inputs generalizing a with
  | nil => simp [infosOf, optApp_nil]
  | cons p rest ih =>
    rw [List.foldl_cons, ih]
    have hname : (mkFileInfo md5 deadline p.2 p.1).name = p.1.name := rfl
    cases h : matchKey roster p.1.name with
    | none =>
      rw [classifyStep_valid]
      simp [h, infosOf, List.filter_cons, hname]
    | some sid =>
      rw [classifyStep_valid]
      by_cases hk : sid = k
      · subst hk
        simp only [h]
        rw [lookup_dictAppend_self, ← optApp_single, optApp_cons]
        simp [h, infosOf, List.filter_cons, hname]
      · simp only [h]
        rw [lookup_dictAppend_ne _ _ _ _ fun hh => hk hh.symm]
        simp [h, infosOf, List.filter_cons, hname, hk]

/-- Every file stored in a submission group was routed there: its filename
extracts exactly that roster id. -/
theorem classify_valid_inv (md5 : List Nat → String)
    (roster : List (String × String)) (deadline : Nat)
    (inputs : List (UpFile × Nat)) (a : Analysis)
    (ha : ∀ q ∈ a.valid, ∀ fi ∈ q.2, matchKey roster fi.name = some q.1) :
    ∀ q ∈ (inputs.foldl (classifyStep md5 roster deadline) a).valid,
      ∀ fi ∈ q.2, matchKey roster fi.name = some q.1 := by
  induction inputs generalizing a with
  | nil => exact ha
  | cons p rest ih =>
    rw [List.foldl_cons]
    refine ih _ ?_
    rw [classifyStep_valid]
    cases h : matchKey roster p.1.name with
    | none => exact ha
    | some sid =>
      exact dictAppend_inv (fun k fi => matchKey roster fi.name = some k)
        a.valid sid _ ha h

/-- Every file stored in a digest bucket bears that digest. -/
theorem classify_similarity_inv (md5 : List Nat → String)
    (roster : List (String × String)) (deadline : Nat)
    (inputs : List (UpFile × Nat)) (a : Analysis)
    (ha : ∀ q ∈ a.similarity, ∀ fi ∈ q.2, fi.md5 = q.1) :
    ∀ q ∈ (inputs.foldl (classifyStep md5 roster deadline) a).similarity,
      ∀ fi ∈ q.2, fi.md5 = q.1 := by
  induction inputs generalizing a with
  | nil => exact ha
  | cons p rest ih =>
    rw [List.foldl_cons]
    refine ih _ ?_
    rw [classifyStep_similarity]
    exact dictAppend_inv (fun d fi => fi.md5 = d) a.similarity _ _ ha rfl

/-- The digest bucket of key `d` holds exactly the input files whose digest
is `d`, in arrival order. -/
theorem classify_similarity_lookup_aux (md5 : List Nat → String)
    (roster : List (String × String)) (deadline : Nat)
    (inputs : List (UpFile × Nat)) (a : Analysis) (d : String) :
    ((inputs.foldl (classifyStep md5 roster deadline) a).similarity).lookup d
      = optApp (a.similarity.lookup d)
          ((infosOf md5 deadline inputs).filter
            (fun fi => decide (fi.md5 = d))) := by
  induction inputs generalizing a with
  | nil => simp [infosOf, optApp_nil]
  | cons p rest ih =>
    rw [List.foldl_cons, ih, classifyStep_similarity]
    by_cases hd : (mkFileInfo md5 deadline p.2 p.1).md5 = d
    · rw [hd, lookup_dictAppend_self, ← optApp_single, optApp_cons]
      simp [infosOf, List.filter_cons, hd]
    · rw [lookup_dictAppend_ne _ _ _ _ fun hh => hd hh.symm]
      simp [infosOf, List.filter_cons, hd]

/-- A concrete stand-in digest function for closed test instances. -/
def wMd5 : List Nat → String := fun c => toString c

theorem lookup_nil {β : Type} (k : String) : ([] : List (String × β)).lookup k = none :=
  rfl

theorem optApp_none_of_mem (l : List FileInfo) (x : FileInfo) (hx : x ∈ l) :
    optApp none l = some l := by
  cases l with
  | nil => cases hx
  | cons y ys => rfl

/-- C1: `classify` partitions the input batch: each input file's record lands
in `unknown` exactly when its filename yields no roster id (and then in no
submission group), and otherwise lands in exactly the group of its extracted
id and not in `unknown`. -/
theorem claim_C1_classify_partition (md5 : List Nat → String)
    (roster : List (String × String)) (files : List UpFile) (times : List Nat)
    (deadline : Nat) (p : UpFile × Nat) (hp : p ∈ files.zip times) :
    (matchKey roster p.1.name = none →
      mkFileInfo md5 deadline p.2 p.1 ∈ (classify md5 roster files times deadline).unknown ∧
      ∀ q ∈ (classify md5 roster files times deadline).valid,
        mkFileInfo md5 deadline p.2 p.1 ∉ q.2) ∧
    (∀ sid, matchKey roster p.1.name = some sid →
      mkFileInfo md5 deadline p.2 p.1 ∉ (classify md5 roster files times deadline).unknown ∧
      ∃ l, ((classify md5 roster files times deadline).valid).lookup sid = some l ∧
        mkFileInfo md5 deadline p.2 p.1 ∈ l ∧
        ∀ q ∈ (classify md5 roster files times deadline).valid,
          mkFileInfo md5 deadline p.2 p.1 ∈ q.2 → q.1 = sid) := by
  have hfi : mkFileInfo md5 deadline p.2 p.1 ∈ infosOf md5 deadline (files.zip times) :=
    List.mem_map_of_mem _ hp
  have hname : (mkFileInfo md5 deadline p.2 p.1).name = p.1.name := rfl
  have hunk : (classify md5 roster files times deadline).unknown
      = (infosOf md5 deadline (files.zip times)).filter
          (fun fi => (matchKey roster fi.name).isNone) := by
    have h := classify_unknown_aux md5 roster deadline (files.zip times) ⟨[], [], []⟩
    simpa [classify] using h
  have hinv : ∀ q ∈ (classify md5 roster files times deadline).valid,
      ∀ fi ∈ q.2, matchKey roster fi.name = some q.1 := by
    have h := classify_valid_inv md5 roster deadline (files.zip times) ⟨[], [], []⟩
      (by intro q hq; cases hq)
    simpa [classify] using h
  constructor
  · intro h
    constructor
    · rw [hunk]
      exact List.mem_filter.mpr ⟨hfi, by simp [hname, h]⟩
    · intro q hq hmem
      have := hinv q hq _ hmem
      rw [hname, h] at this
      cases this
  · intro sid h
    constructor
    · intro hmem
      rw [hunk] at hmem
      have := (List.mem_filter.mp hmem).2
      rw [hname, h] at this
      simp at this
    · have hlook : ((classify md5 roster files times deadline).valid).lookup sid
          = optApp none ((infosOf md5 deadline (files.zip times)).filter
              (fun fi => decide (matchKey roster fi.name = some sid))) := by
        have h2 := classify_valid_lookup_aux md5 roster deadline (files.zip times)
          ⟨[], [], []⟩ sid
        simpa [classify, lookup_nil] using h2
      have hmemf : mkFileInfo md5 deadline p.2 p.1
          ∈ (infosOf md5 deadline (files.zip times)).filter
              (fun fi => decide (matchKey roster fi.name = some sid)) :=
        List.mem_filter.mpr ⟨hfi, by simp [hname, h]⟩
      refine ⟨_, by rw [hlook, optApp_none_of_mem _ _ hmemf], hmemf, ?_⟩
      intro q hq hmem
      have := hinv q hq _ hmem
      rw [hname, h] at this
      exact (Option.some.injEq _ _ ▸ this).symm

/-- C1 witness: the single file `123456789_hw.py` of the enrolled student
`123456789` lands in that student's group and not in `unknown`. -/
theorem claim_C1_classify_partition_witness :
    mkFileInfo wMd5 0 5 ⟨"123456789_hw.py", [1], 3⟩
      ∉ (classify wMd5 [("123456789", "Alice")] [⟨"123456789_hw.py", [1], 3⟩] [5] 0).unknown ∧
    ∃ l, ((classify wMd5 [("123456789", "Alice")] [⟨"123456789_hw.py", [1], 3⟩] [5] 0).valid).lookup
        "123456789" = some l ∧
      mkFileInfo wMd5 0 5 ⟨"123456789_hw.py", [1], 3⟩ ∈ l ∧
      ∀ q ∈ (classify wMd5 [("123456789", "Alice")] [⟨"123456789_hw.py", [1], 3⟩] [5] 0).valid,
        mkFileInfo wMd5 0 5 ⟨"123456789_hw.py", [1], 3⟩ ∈ q.2 → q.1 = "123456789" :=
  (claim_C1_classify_partition wMd5 [("123456789", "Alice")]
    [⟨"123456789_hw.py", [1], 3⟩] [5] 0 (⟨"123456789_hw.py", [1], 3⟩, 5)
    (by decide)).2 "123456789" (by decide)

/-- C3: digest grouping is content-determined and global: two input files
with byte-identical content land in the same `similarity` bucket whatever
their filenames or positions, and, barring a digest collision, files of
different content never share a bucket. -/
theorem claim_C3_digest_grouping (md5 : List Nat → String)
    (roster : List (String × String)) (files : List UpFile) (times : List Nat)
    (deadline : Nat) (p1 p2 : UpFile × Nat)
    (h1 : p1 ∈ files.zip times) (h2 : p2 ∈ files.zip times) :
    (p1.1.content = p2.1.content →
      ∃ l, ((classify md5 roster files times deadline).similarity).lookup
          (md5 p1.1.content) = some l ∧
        mkFileInfo md5 deadline p1.2 p1.1 ∈ l ∧
        mkFileInfo md5 deadline p2.2 p2.1 ∈ l) ∧
    (p1.1.content ≠ p2.1.content → md5 p1.1.content ≠ md5 p2.1.content →
      ∀ d l, (d, l) ∈ (classify md5 roster files times deadline).similarity →
        mkFileInfo md5 deadline p1.2 p1.1 ∈ l →
        mkFileInfo md5 deadline p2.2 p2.1 ∈ l → False) := by
  have hfi1 : mkFileInfo md5 deadline p1.2 p1.1 ∈ infosOf md5 deadline (files.zip times) :=
    List.mem_map_of_mem _ h1
  have hfi2 : mkFileInfo md5 deadline p2.2 p2.1 ∈ infosOf md5 deadline (files.zip times) :=
    List.mem_map_of_mem _ h2
  have hmd1 : (mkFileInfo md5 deadline p1.2 p1.1).md5 = md5 p1.1.content := rfl
  have hmd2 : (mkFileInfo md5 deadline p2.2 p2.1).md5 = md5 p2.1.content := rfl
  constructor
  · intro hc
    have hlook : ((classify md5 roster files times deadline).similarity).lookup
        (md5 p1.1.content)
        = optApp none ((infosOf md5 deadline (files.zip times)).filter
            (fun fi => decide (fi.md5 = md5 p1.1.content))) := by
      have h := classify_similarity_lookup_aux md5 roster deadline (files.zip times)
        ⟨[], [], []⟩ (md5 p1.1.content)
      simpa [classify, lookup_nil] using h
    have hm1 : mkFileInfo md5 deadline p1.2 p1.1
        ∈ (infosOf md5 deadline (files.zip times)).filter
            (fun fi => decide (fi.md5 = md5 p1.1.content)) :=
      List.mem_filter.mpr ⟨hfi1, by simp [hmd1]⟩
    have hm2 : mkFileInfo md5 deadline p2.2 p2.1
        ∈ (infosOf md5 deadline (files.zip times)).filter
            (fun fi => decide (fi.md5 = md5 p1.1.content)) :=
      List.mem_filter.mpr ⟨hfi2, by simp [hmd2, hc]⟩
    exact ⟨_, by rw [hlook, optApp_none_of_mem _ _ hm1], hm1, hm2⟩
  · intro _ hnc d l hdl hm1 hm2
    have hinv : ∀ q ∈ (classify md5 roster files times deadline).similarity,
        ∀ fi ∈ q.2, fi.md5 = q.1 := by
      have h := classify_similarity_inv md5 roster deadline (files.zip times)
        ⟨[], [], []⟩ (by intro q hq; cases hq)
      simpa [classify] using h
    have e1 : md5 p1.1.content = d := hmd1 ▸ hinv (d, l) hdl _ hm1
    have e2 : md5 p2.1.content = d := hmd2 ▸ hinv (d, l) hdl _ hm2
    exact hnc (e1.trans e2.symm)

/-- C3 witness: two files with identical bytes `[7]` uploaded under
different names and at different times share the digest bucket of `[7]`. -/
theorem claim_C3_digest_grouping_witness :
    ∃ l, ((classify wMd5 [] [⟨"a.py", [7], 1⟩, ⟨"b.py", [7], 1⟩] [1, 2] 0).similarity).lookup
        (wMd5 [7]) = some l ∧
      mkFileInfo wMd5 0 1 ⟨"a.py", [7], 1⟩ ∈ l ∧
      mkFileInfo wMd5 0 2 ⟨"b.py", [7], 1⟩ ∈ l :=
  (claim_C3_digest_grouping wMd5 [] [⟨"a.py", [7], 1⟩, ⟨"b.py", [7], 1⟩] [1, 2] 0
    (⟨"a.py", [7], 1⟩, 1) (⟨"b.py", [7], 1⟩, 2) (by decide) (by decide)).1 rfl

theorem winAt_of_tenAt (l : List Char) (i : Nat) (h : tenAt l i = true) :
    winAt l i = true := by
  simp only [tenAt, Bool.and_eq_true, decide_eq_true_eq, List.all_eq_true] at h
  obtain ⟨hlen, hdig⟩ := h
  simp only [winAt, Bool.and_eq_true, decide_eq_true_eq, List.all_eq_true]
  refine ⟨by omega, ?_⟩
  intro c hc
  apply hdig
  rw [show (l.drop i).take 9 = ((l.drop i).take 10).take 9 from by
    rw [List.take_take]; norm_num] at hc
  exact List.take_subset _ _ hc

/-- C2: `extract_id` returns the 9 digits at the leftmost position where a
9-digit window starts, and `none` when no position starts one; on
`"201912345report2020.pdf"` the leftmost run `"201912345"` is returned. -/
theorem claim_C2_extract_id_leftmost (s : String) :
    ((∀ i < s.data.length, winAt s.data i = false) → extract_id s = none) ∧
    (∀ i, winAt s.data i = true → (∀ j < i, winAt s.data j = false) →
      extract_id s = some (String.mk ((s.data.drop i).take 9))) ∧
    extract_id "201912345report2020.pdf" = some "201912345" := by
  refine ⟨?_, ?_, by decide⟩
  · intro h
    exact (extract_id_eq_none_iff s).mpr h
  · intro i h hmin
    exact extract_id_eq_some s i h hmin

/-- C2 witness: a filename with no 9-digit window yields `none`, and the
scenario filename yields its leftmost window, which is `"201912345"`. -/
theorem claim_C2_extract_id_leftmost_witness :
    extract_id "notes.txt" = none ∧
    extract_id "201912345report2020.pdf"
      = some (String.mk (("201912345report2020.pdf".data.drop 0).take 9)) :=
  ⟨(claim_C2_extract_id_leftmost "notes.txt").1 (by decide),
   (claim_C2_extract_id_leftmost "201912345report2020.pdf").2.1 0 (by decide)
     (fun j hj => absurd hj (Nat.not_lt_zero j))⟩

/-- C10: the `\d{9}` search is unanchored, so a digit run longer than 9 still
matches: whenever a 10-digit window exists `extract_id` is not `none`;
`extract_id` is `none` exactly when no 9-digit window exists anywhere; and on
an 11-digit run the first 9 digits of the run are returned. -/
theorem claim_C10_extract_id_long_runs (s : String) :
    (∀ i, tenAt s.data i = true → extract_id s ≠ none) ∧
    (extract_id s = none ↔ ∀ i < s.data.length, winAt s.data i = false) ∧
    extract_id "hw12345678901.txt" = some "123456789" := by
  refine ⟨?_, extract_id_eq_none_iff s, by decide⟩
  intro i h hnone
  have hwin : winAt s.data i = true := winAt_of_tenAt s.data i h
  have hlen : i < s.data.length := by
    simp only [tenAt, Bool.and_eq_true, decide_eq_true_eq] at h
    have := h.1
    rw [List.length_drop] at this
    omega
  have hfalse := (extract_id_eq_none_iff s).mp hnone i hlen
  rw [hwin] at hfalse
  cases hfalse

/-- C10 witness: `"hw12345678901.txt"` contains an 11-digit run (a 10-digit
window starts at index 2), so `extract_id` does not return `none`. -/
theorem claim_C10_extract_id_long_runs_witness :
    extract_id "hw12345678901.txt" ≠ none :=
  (claim_C10_extract_id_long_runs "hw12345678901.txt").1 2 (by decide)

theorem matchKey_nil (nm : String) : matchKey [] nm = none := by
  unfold matchKey
  cases he : extract_id nm <;> simp

theorem classify_valid_roster_nil_aux (md5 : List Nat → String) (deadline : Nat)
    (inputs : List (UpFile × Nat)) (a : Analysis) :
    (inputs.foldl (classifyStep md5 [] deadline) a).valid = a.valid := by
  induction inputs generalizing a with
  | nil => rfl
  | cons p rest ih =>
    rw [List.foldl_cons, ih, classifyStep_valid, matchKey_nil]

/-- C7: with an empty roster and a non-empty batch, classification still
succeeds: the completion rate is `0` (no division by zero), no submission
group exists, and every input file lands in `unknown`. -/
theorem claim_C7_empty_roster (md5 : List Nat → String)
    (roster : List (String × String)) (files : List UpFile) (times : List Nat)
    (deadline : Nat) (hr : roster = []) (hf : files ≠ [])
    (hlen : times.length = files.length) :
    percent roster (classify md5 roster files times deadline) = 0 ∧
    (classify md5 roster files times deadline).valid = [] ∧
    (classify md5 roster files times deadline).unknown
      = infosOf md5 deadline (files.zip times) ∧
    (classify md5 roster files times deadline).unknown ≠ [] := by
  subst hr
  have hvalid : (classify md5 [] files times deadline).valid = [] := by
    have h := classify_valid_roster_nil_aux md5 deadline (files.zip times) ⟨[], [], []⟩
    simpa [classify] using h
  have hunk : (classify md5 [] files times deadline).unknown
      = infosOf md5 deadline (files.zip times) := by
    have h := classify_unknown_aux md5 [] deadline (files.zip times) ⟨[], [], []⟩
    rw [List.filter_eq_self.mpr (fun fi _ => by simp [matchKey_nil])] at h
    simpa [classify] using h
  refine ⟨by simp [percent], hvalid, hunk, ?_⟩
  rw [hunk]
  intro hnil
  have hlz : (files.zip times).length = files.length := by
    rw [List.length_zip, hlen, Nat.min_self]
  have : (infosOf md5 deadline (files.zip times)).length = files.length := by
    rw [infosOf, List.length_map, hlz]
  rw [hnil] at this
  exact hf (List.length_eq_zero.mp this.symm)

/-- C7 witness: empty roster, one file: rate `0`, no group, the file is
unknown. -/
theorem claim_C7_empty_roster_witness :
    percent [] (classify wMd5 [] [⟨"x.py", [1], 1⟩] [3] 0) = 0 ∧
    (classify wMd5 [] [⟨"x.py", [1], 1⟩] [3] 0).valid = [] ∧
    (classify wMd5 [] [⟨"x.py", [1], 1⟩] [3] 0).unknown
      = infosOf wMd5 0 ([⟨"x.py", [1], 1⟩].zip [3]) ∧
    (classify wMd5 [] [⟨"x.py", [1], 1⟩] [3] 0).unknown ≠ [] :=
  claim_C7_empty_roster wMd5 [] [⟨"x.py", [1], 1⟩] [3] 0 rfl (by decide) rfl

theorem matchKey_some_contains (roster : List (String × String)) (nm sid : String)
    (h : matchKey roster nm = some sid) :
    (roster.map Prod.fst).contains sid = true := by
  unfold matchKey at h
  cases he : extract_id nm with
  | none => rw [he] at h; cases h
  | some s2 =>
    rw [he] at h
    have h2 : (if (roster.map Prod.fst).contains s2 = true then some s2 else none)
        = some sid := h
    by_cases hc : (roster.map Prod.fst).contains s2 = true
    · rw [if_pos hc] at h2
      obtain rfl : s2 = sid := Option.some.inj h2
      exact hc
    · rw [if_neg hc] at h2
      cases h2

theorem dictAppend_keys (m : List (String × List FileInfo)) (k : String)
    (v : FileInfo) :
    (dictAppend m k v).map Prod.fst
      = if (m.map Prod.fst).contains k then m.map Prod.fst
        else m.map Prod.fst ++ [k] := by
  induction m with
  | nil => simp [dictAppend]
  | cons q rest ih =>
    obtain ⟨k1, l1⟩ := q
    by_cases h : k1 = k
    · subst h
      simp [dictAppend]
    · have hb : (k == k1) = false := beq_eq_false_iff_ne.mpr fun hh => h hh.symm
      have hcc : ((k1 :: rest.map Prod.fst).contains k) = ((rest.map Prod.fst).contains k) := by
        rw [List.contains_cons, hb, Bool.false_or]
      simp only [dictAppend, if_neg h, List.map_cons, ih, hcc]
      by_cases hc : (rest.map Prod.fst).contains k = true
      · rw [if_pos hc, if_pos hc]
      · rw [if_neg hc, if_neg hc, List.cons_append]

theorem classify_valid_keys_nodup (md5 : List Nat → String)
    (roster : List (String × String)) (deadline : Nat)
    (inputs : List (UpFile × Nat)) (a : Analysis)
    (ha : (a.valid.map Prod.fst).Nodup) :
    (((inputs.foldl (classifyStep md5 roster deadline) a).valid).map Prod.fst).Nodup := by
  induction inputs generalizing a with
  | nil => exact ha
  | cons p rest ih =>
    rw [List.foldl_cons]
    refine ih _ ?_
    rw [classifyStep_valid]
    cases h : matchKey roster p.1.name with
    | none => exact ha
    | some sid =>
      rw [dictAppend_keys]
      by_cases hc : ((a.valid.map Prod.fst).contains sid) = true
      · rw [if_pos hc]; exact ha
      · rw [if_neg hc]
        have hnm : sid ∉ a.valid.map Prod.fst := by
          intro hmem
          exact hc (List.elem_iff.mpr hmem)
        simp [List.nodup_append, ha, hnm]

theorem classify_valid_keys_sub (md5 : List Nat → String)
    (roster : List (String × String)) (deadline : Nat)
    (inputs : List (UpFile × Nat)) (a : Analysis)
    (ha : ∀ k ∈ a.valid.map Prod.fst, k ∈ roster.map Prod.fst) :
    ∀ k ∈ ((inputs.foldl (classifyStep md5 roster deadline) a).valid).map Prod.fst,
      k ∈ roster.map Prod.fst := by
  induction inputs generalizing a with
  | nil => exact ha
  | cons p rest ih =>
    rw [List.foldl_cons]
    refine ih _ ?_
    rw [classifyStep_valid]
    cases h : matchKey roster p.1.name with
    | none => exact ha
    | some sid =>
      intro k hk
      rw [dictAppend_keys] at hk
      by_cases hc : ((a.valid.map Prod.fst).contains sid) = true
      · rw [if_pos hc] at hk; exact ha k hk
      · rw [if_neg hc] at hk
        rcases List.mem_append.mp hk with hk | hk
        · exact ha k hk
        · obtain rfl : k = sid := by simpa using hk
          exact List.elem_iff.mp (matchKey_some_contains roster p.1.name k h)

/-- C4: `missing_ids` is the sorted complement of the submission-group keys
inside the distinct roster ids, so its length plus the number of submission
groups is the roster size. -/
theorem claim_C4_missing_ids (md5 : List Nat → String)
    (roster : List (String × String)) (files : List UpFile) (times : List Nat)
    (deadline : Nat) (hnd : (roster.map Prod.fst).Nodup) :
    (missing_ids roster (classify md5 roster files times deadline)).length
        + (classify md5 roster files times deadline).valid.length
      = roster.length ∧
    (missing_ids roster (classify md5 roster files times deadline)).Pairwise
      (fun a b => a ≤ b) ∧
    (∀ id, id ∈ missing_ids roster (classify md5 roster files times deadline) ↔
      id ∈ roster.map Prod.fst ∧
        id ∉ ((classify md5 roster files times deadline).valid).map Prod.fst) := by
  have hVnd : (((classify md5 roster files times deadline).valid).map Prod.fst).Nodup := by
    have h := classify_valid_keys_nodup md5 roster deadline (files.zip times)
      ⟨[], [], []⟩ (by simp)
    simpa [classify] using h
  have hVsub : ∀ k ∈ ((classify md5 roster files times deadline).valid).map Prod.fst,
      k ∈ roster.map Prod.fst := by
    have h := classify_valid_keys_sub md5 roster deadline (files.zip times)
      ⟨[], [], []⟩ (by simp)
    simpa [classify] using h
  refine ⟨?_, ?_, ?_⟩
  · rw [missing_ids, List.length_mergeSort]
    have hsplit := List.length_eq_length_filter_add
      (l := roster.map Prod.fst)
      (fun id =>
        (((classify md5 roster files times deadline).valid).map Prod.fst).contains id)
    have hkept : ((roster.map Prod.fst).filter
        (fun id =>
          (((classify md5 roster files times deadline).valid).map Prod.fst).contains id)).length
        = (((classify md5 roster files times deadline).valid).map Prod.fst).length := by
      refine (List.perm_of_nodup_nodup_toFinset_eq (hnd.filter _) hVnd ?_).length_eq
      ext x
      simp only [List.mem_toFinset, List.mem_filter]
      constructor
      · intro hx
        exact List.elem_iff.mp hx.2
      · intro hx
        exact ⟨hVsub x hx, List.elem_iff.mpr hx⟩
    rw [List.length_map] at hkept
    rw [List.length_map] at hsplit
    omega
  · have h := List.sorted_mergeSort' (α := String)
      ((roster.map Prod.fst).filter
        (fun id =>
          !(((classify md5 roster files times deadline).valid).map Prod.fst).contains id))
    simpa [List.Sorted, missing_ids] using h
  · intro id
    rw [missing_ids, List.mem_mergeSort, List.mem_filter]
    constructor
    · rintro ⟨h1, h2⟩
      refine ⟨h1, fun hmem => ?_⟩
      have hct : (((classify md5 roster files times deadline).valid).map Prod.fst).contains id
          = true := List.elem_iff.mpr hmem
      rw [hct] at h2
      simp at h2
    · rintro ⟨h1, h2⟩
      refine ⟨h1, ?_⟩
      cases hcc : (((classify md5 roster files times deadline).valid).map Prod.fst).contains id
      · rfl
      · exact absurd (List.elem_iff.mp hcc) h2

/-- C4 witness: roster of two students, one submission: one missing id, and
`1 + 1 = 2`. -/
theorem claim_C4_missing_ids_witness :
    (missing_ids [("123456789", "Alice"), ("987654321", "Bob")]
        (classify wMd5 [("123456789", "Alice"), ("987654321", "Bob")]
          [⟨"123456789_hw.py", [1], 3⟩] [5] 0)).length
        + (classify wMd5 [("123456789", "Alice"), ("987654321", "Bob")]
            [⟨"123456789_hw.py", [1], 3⟩] [5] 0).valid.length
      = [("123456789", "Alice"), ("987654321", "Bob")].length :=
  (claim_C4_missing_ids wMd5 [("123456789", "Alice"), ("987654321", "Bob")]
    [⟨"123456789_hw.py", [1], 3⟩] [5] 0 (by decide)).1

/-- C5 counterexample: a student's group holds two files, both carrying
resolved timestamps, with the earlier-arrived file bearing the larger
timestamp (5 over 3).  The claimed policy picks the maximum-timestamp file,
but the display code (`f = f_list[-1]`, line 151) picks the last-arrived
one — a different file. -/
theorem claim_C5_counterexample :
    ((classify wMd5 [("123456789", "A")]
        [⟨"123456789_v1.py", [1], 1⟩, ⟨"123456789_v2.py", [2], 1⟩] [5, 3] 0).valid).lookup
        "123456789"
      = some [mkFileInfo wMd5 0 5 ⟨"123456789_v1.py", [1], 1⟩,
              mkFileInfo wMd5 0 3 ⟨"123456789_v2.py", [2], 1⟩] ∧
    representative [mkFileInfo wMd5 0 5 ⟨"123456789_v1.py", [1], 1⟩,
        mkFileInfo wMd5 0 3 ⟨"123456789_v2.py", [2], 1⟩]
      = some (mkFileInfo wMd5 0 3 ⟨"123456789_v2.py", [2], 1⟩) ∧
    specMostRecent [mkFileInfo wMd5 0 5 ⟨"123456789_v1.py", [1], 1⟩,
        mkFileInfo wMd5 0 3 ⟨"123456789_v2.py", [2], 1⟩]
      = some (mkFileInfo wMd5 0 5 ⟨"123456789_v1.py", [1], 1⟩) ∧
    mkFileInfo wMd5 0 3 ⟨"123456789_v2.py", [2], 1⟩
      ≠ mkFileInfo wMd5 0 5 ⟨"123456789_v1.py", [1], 1⟩ := by
  decide

/-- C5 (amended): the representative file shown for a student is always the
last-arrived file of that student's submissions in input order, regardless of
timestamps. -/
theorem claim_C5_representative_last (md5 : List Nat → String)
    (roster : List (String × String)) (files : List UpFile) (times : List Nat)
    (deadline : Nat) (sid : String) (l : List FileInfo)
    (h : ((classify md5 roster files times deadline).valid).lookup sid = some l) :
    representative l
      = ((infosOf md5 deadline (files.zip times)).filter
          (fun fi => decide (matchKey roster fi.name = some sid))).getLast? := by
  have e : ((classify md5 roster files times deadline).valid).lookup sid
      = optApp none ((infosOf md5 deadline (files.zip times)).filter
          (fun fi => decide (matchKey roster fi.name = some sid))) := by
    have h2 := classify_valid_lookup_aux md5 roster deadline (files.zip times)
      ⟨[], [], []⟩ sid
    simpa [classify, lookup_nil] using h2
  rw [e] at h
  cases hf : (infosOf md5 deadline (files.zip times)).filter
      (fun fi => decide (matchKey roster fi.name = some sid)) with
  | nil =>
    rw [hf] at h
    cases h
  | cons x xs =>
    rw [hf] at h
    obtain rfl : l = x :: xs := (Option.some.inj h).symm
    rfl

/-- C5 (amended) witness: with files arriving at times 5 then 3, the
displayed file is the last-arrived one. -/
theorem claim_C5_representative_last_witness :
    representative [mkFileInfo wMd5 0 5 ⟨"123456789_a.py", [1], 1⟩,
        mkFileInfo wMd5 0 3 ⟨"123456789_b.py", [2], 1⟩]
      = ((infosOf wMd5 0
            ([(⟨"123456789_a.py", [1], 1⟩ : UpFile), ⟨"123456789_b.py", [2], 1⟩].zip
              [5, 3])).filter
          (fun fi => decide (matchKey [("123456789", "A")] fi.name
            = some "123456789"))).getLast? :=
  claim_C5_representative_last wMd5 [("123456789", "A")]
    [⟨"123456789_a.py", [1], 1⟩, ⟨"123456789_b.py", [2], 1⟩] [5, 3] 0 "123456789"
    [mkFileInfo wMd5 0 5 ⟨"123456789_a.py", [1], 1⟩,
     mkFileInfo wMd5 0 3 ⟨"123456789_b.py", [2], 1⟩] (by decide)

/-- The clock-independent fields of a `file_info` record: everything except
the wall-clock sample `time` and the clock-derived flag `is_late`. -/
structure StableInfo where
  name : String
  md5 : String
  size : Nat
deriving DecidableEq, Repr

def stableOf (fi : FileInfo) : StableInfo :=
  ⟨fi.name, fi.md5, fi.size⟩

/-- An `Analysis` with every per-file record reduced to its clock-independent
fields. -/
def eraseClock (a : Analysis) :
    List (String × List StableInfo) × List StableInfo × List (String × List StableInfo) :=
  (a.valid.map (fun q => (q.1, q.2.map stableOf)),
   a.unknown.map stableOf,
   a.similarity.map (fun q => (q.1, q.2.map stableOf)))

theorem map_stable_dictAppend (m : List (String × List FileInfo)) (k : String)
    (v : FileInfo) :
    (dictAppend m k v).map (fun q => (q.1, q.2.map stableOf))
      = dictAppend (m.map (fun q => (q.1, q.2.map stableOf))) k (stableOf v) := by
  induction m with
  | nil => rfl
  | cons q rest ih =>
    obtain ⟨k1, l1⟩ := q
    by_cases h : k1 = k
    · subst h
      simp [dictAppend]
    · simp [dictAppend, h, ih]

theorem classifyStep_erase (md5 : List Nat → String) (roster : List (String × String))
    (d1 d2 : Nat) (a1 a2 : Analysis) (f : UpFile) (t1 t2 : Nat)
    (h : eraseClock a1 = eraseClock a2) :
    eraseClock (classifyStep md5 roster d1 a1 (f, t1))
      = eraseClock (classifyStep md5 roster d2 a2 (f, t2)) := by
  have hv : a1.valid.map (fun q => (q.1, q.2.map stableOf))
      = a2.valid.map (fun q => (q.1, q.2.map stableOf)) := congrArg Prod.fst h
  have hu : a1.unknown.map stableOf = a2.unknown.map stableOf :=
    congrArg (fun x => x.2.1) h
  have hs : a1.similarity.map (fun q => (q.1, q.2.map stableOf))
      = a2.similarity.map (fun q => (q.1, q.2.map stableOf)) :=
    congrArg (fun x => x.2.2) h
  have hstable : stableOf (mkFileInfo md5 d1 t1 f) = stableOf (mkFileInfo md5 d2 t2 f) := rfl
  have hmd : (mkFileInfo md5 d1 t1 f).md5 = (mkFileInfo md5 d2 t2 f).md5 := rfl
  have hsim : (classifyStep md5 roster d1 a1 (f, t1)).similarity.map
        (fun q => (q.1, q.2.map stableOf))
      = (classifyStep md5 roster d2 a2 (f, t2)).similarity.map
        (fun q => (q.1, q.2.map stableOf)) := by
    rw [classifyStep_similarity, classifyStep_similarity, map_stable_dictAppend,
      map_stable_dictAppend, hs, hstable, hmd]
  have hval : (classifyStep md5 roster d1 a1 (f, t1)).valid.map
        (fun q => (q.1, q.2.map stableOf))
      = (classifyStep md5 roster d2 a2 (f, t2)).valid.map
        (fun q => (q.1, q.2.map stableOf)) := by
    rw [classifyStep_valid, classifyStep_valid]
    cases hm : matchKey roster f.name with
    | none => exact hv
    | some sid =>
      rw [map_stable_dictAppend, map_stable_dictAppend, hv, hstable]
  have hunk : (classifyStep md5 roster d1 a1 (f, t1)).unknown.map stableOf
      = (classifyStep md5 roster d2 a2 (f, t2)).unknown.map stableOf := by
    rw [classifyStep_unknown, classifyStep_unknown]
    cases hm : matchKey roster f.name with
    | none => rw [List.map_append, List.map_append, hu, List.map_singleton,
        List.map_singleton, hstable]
    | some sid => exact hu
  simp only [eraseClock]
  rw [hval, hunk, hsim]

theorem classify_erase_aux (md5 : List Nat → String) (roster : List (String × String))
    (d1 d2 : Nat) (files : List UpFile) (ts1 ts2 : List Nat) (a1 a2 : Analysis)
    (hl1 : ts1.length = files.length) (hl2 : ts2.length = files.length)
    (h : eraseClock a1 = eraseClock a2) :
    eraseClock ((files.zip ts1).foldl (classifyStep md5 roster d1) a1)
      = eraseClock ((files.zip ts2).foldl (classifyStep md5 roster d2) a2) := by
  induction files generalizing ts1 ts2 a1 a2 with
  | nil => simpa using h
  | cons f rest ih =>
    cases ts1 with
    | nil => simp at hl1
    | cons t1 ts1 =>
      cases ts2 with
      | nil => simp at hl2
      | cons t2 ts2 =>
        simp only [List.zip_cons_cons, List.foldl_cons]
        exact ih ts1 ts2 _ _ (by simpa using hl1) (by simpa using hl2)
          (classifyStep_erase md5 roster d1 d2 a1 a2 f t1 t2 h)

/-- C6 counterexample: the very same roster, files and order, processed at
wall-clock samples 0 versus 1, yield different `Classification` structures —
the per-file `time` field differs between the two runs. -/
theorem claim_C6_counterexample :
    classify wMd5 [] [⟨"a.py", [1], 1⟩] [0] 5
      ≠ classify wMd5 [] [⟨"a.py", [1], 1⟩] [1] 5 := by
  decide

/-- C6 (amended): classifying the same batch (same roster, same files, same
order) twice yields identical structures up to the wall-clock-derived
per-file fields `time` and `is_late`: erasing those two fields, the two runs
agree exactly, whatever clock samples and deadlines they saw. -/
theorem claim_C6_stable_deterministic (md5 : List Nat → String)
    (roster : List (String × String)) (files : List UpFile)
    (ts1 ts2 : List Nat) (d1 d2 : Nat)
    (hl1 : ts1.length = files.length) (hl2 : ts2.length = files.length) :
    eraseClock (classify md5 roster files ts1 d1)
      = eraseClock (classify md5 roster files ts2 d2) :=
  classify_erase_aux md5 roster d1 d2 files ts1 ts2 ⟨[], [], []⟩ ⟨[], [], []⟩ hl1 hl2 rfl

/-- C6 (amended) witness: the two runs of the counterexample inputs agree
after erasing the clock-derived fields. -/
theorem claim_C6_stable_deterministic_witness :
    eraseClock (classify wMd5 [] [⟨"a.py", [1], 1⟩] [0] 5)
      = eraseClock (classify wMd5 [] [⟨"a.py", [1], 1⟩] [1] 5) :=
  claim_C6_stable_deterministic wMd5 [] [⟨"a.py", [1], 1⟩] [0] [1] 5 5 rfl rfl

/-- The roster spreadsheet as `pandas.read_excel` delivers it: a header row
and the cell grid, a missing cell (`NaN`) being `none`. -/
structure DF where
  columns : List String
  rows : List (List (Option String))
deriving DecidableEq, Repr

/-- Python's `str(...)` on a cell: a missing value prints as `"nan"`. -/
def cellStr : Option String → String
  | some s => s
  | none => "nan"

/-- Substring search over char lists, modelling Python's `in` on strings. -/
def subSearch (p : List Char) : List Char → Bool
  | [] => p.isEmpty
  | c :: cs => p.isPrefixOf (c :: cs) || subSearch p cs

/-- `pat in s` for Python strings. -/
def containsSub (s pat : String) : Bool :=
  subSearch pat.data s.data

/-- Truthiness of `re.search(r'\d{9}', v)`. -/
def hasNine (s : String) : Bool :=
  (findNine s.data).isSome

/-- Index of the first element satisfying `p`, modelling
`next((i for i, col in enumerate(df.columns) if ...), None)` (line 30). -/
def firstIdxWhere {α : Type} (p : α → Bool) : List α → Option Nat
  | [] => none
  | x :: xs => if p x then some 0 else (firstIdxWhere p xs).map (· + 1)

/-- First element satisfying `p`, modelling the `for ... break` scan of
lines 32–35. -/
def findFirst {α : Type} (p : α → Bool) : List α → Option α
  | [] => none
  | x :: xs => if p x then some x else findFirst p xs

/-- `df[col].dropna().head(5)` for column `i`: the first 5 present values. -/
def colHead5 (df : DF) (i : Nat) : List String :=
  ((df.rows.map (fun r => r.getD i none)).filterMap id).take 5

/-- Column discovery of lines 30–35: first a header containing the marker
`"学号"`, otherwise the first column among whose first 5 non-empty values
some value contains a 9-digit run. -/
def sid_idx (df : DF) : Option Nat :=
  match firstIdxWhere (fun c => containsSub c "学号") df.columns with
  | some i => some i
  | none => findFirst (fun i => (colHead5 df i).any hasNine) (List.range df.columns.length)

/-- The name cell of a row (lines 39 and 45): the column right of the id
column, or the placeholder `"未知"` when the id column is the last one. -/
def rosterName (df : DF) (i : Nat) (row : List (Option String)) : String :=
  if i + 1 < df.columns.length then cellStr (row.getD (i + 1) none) else "未知"

/-- `roster[s_id] = s_name` on a Python dict: an existing key keeps its
position and gets the new value, a new key is appended at the end. -/
def dictInsert (m : List (String × String)) (k v : String) : List (String × String) :=
  match m with
  | [] => [(k, v)]
  | (k1, v1) :: rest =>
    if k1 = k then (k1, v) :: rest else (k1, v1) :: dictInsert rest k v

/-- The row loop body of lines 41–46: extract a 9-digit run from the id
cell, skip the row when there is none, otherwise bind the id to the row's
name. -/
def rosterStep (df : DF) (i : Nat) (roster : List (String × String))
    (row : List (Option String)) : List (String × String) :=
  match extract_id (cellStr (row.getD i none)) with
  | none => roster
  | some s_id => dictInsert roster s_id (rosterName df i row)

/-- The roster accumulation over the rows (lines 40–46). -/
def buildRoster (df : DF) (i : Nat) (rows : List (List (Option String))) :
    List (String × String) :=
  rows.foldl (rosterStep df i) []

/-- `get_roster_from_upload` (lines 25–47): discover the id column, fail with
the error string when there is none, otherwise build the id → name mapping. -/
def get_roster_from_upload (df : DF) : Except String (List (String × String)) :=
  match sid_idx df with
  | none => Except.error "Excel中未找到学号列"
  | some i => Except.ok (buildRoster df i df.rows)

/-- The main flow of lines 68–114: a roster error is reported and no
classification runs; otherwise the batch is classified against the roster. -/
def runApp (md5 : List Nat → String) (df : DF) (files : List UpFile)
    (times : List Nat) (deadline : Nat) : Except String Analysis :=
  match get_roster_from_upload df with
  | Except.error e => Except.error e
  | Except.ok roster => Except.ok (classify md5 roster files times deadline)

theorem firstIdxWhere_eq_none {α : Type} (p : α → Bool) (l : List α)
    (h : ∀ x ∈ l, p x = false) : firstIdxWhere p l = none := by
  induction l with
  | nil => rfl
  | cons x xs ih =>
    have hx : p x = false := h x (List.mem_cons_self _ _)
    simp [firstIdxWhere, hx, ih (fun y hy => h y (List.mem_cons_of_mem _ hy))]

theorem findFirst_eq_none {α : Type} (p : α → Bool) (l : List α)
    (h : ∀ x ∈ l, p x = false) : findFirst p l = none := by
  induction l with
  | nil => rfl
  | cons x xs ih =>
    have hx : p x = false := h x (List.mem_cons_self _ _)
    simp [findFirst, hx, ih (fun y hy => h y (List.mem_cons_of_mem _ hy))]

theorem lookup_dictInsert_self (m : List (String × String)) (k v : String) :
    (dictInsert m k v).lookup k = some v := by
  induction m with
  | nil => simp [dictInsert, List.lookup]
  | cons q rest ih =>
    obtain ⟨k1, v1⟩ := q
    by_cases h : k1 = k
    · subst h
      simp [dictInsert, List.lookup]
    · have hb : (k == k1) = false := beq_eq_false_iff_ne.mpr fun hh => h hh.symm
      simp [dictInsert, h, List.lookup, hb, ih]

/-- C8: when no header contains the id marker and no column shows a 9-digit
run among its first 5 non-empty values, roster loading fails with the single
error string and the app produces that error instead of any classification. -/
theorem claim_C8_no_id_column (md5 : List Nat → String) (files : List UpFile)
    (times : List Nat) (deadline : Nat) (df : DF)
    (h1 : ∀ c ∈ df.columns, containsSub c "学号" = false)
    (h2 : ∀ i < df.columns.length, (colHead5 df i).any hasNine = false) :
    get_roster_from_upload df = Except.error "Excel中未找到学号列" ∧
    runApp md5 df files times deadline = Except.error "Excel中未找到学号列" := by
  have hs : sid_idx df = none := by
    unfold sid_idx
    rw [firstIdxWhere_eq_none _ _ h1]
    exact findFirst_eq_none _ _ fun i hi => h2 i (List.mem_range.mp hi)
  have hg : get_roster_from_upload df = Except.error "Excel中未找到学号列" := by
    unfold get_roster_from_upload
    rw [hs]
  refine ⟨hg, ?_⟩
  unfold runApp
  rw [hg]

/-- C8 witness: a two-column sheet with neither the marker header nor any
9-digit cell value fails roster loading and halts the app with the error. -/
theorem claim_C8_no_id_column_witness :
    get_roster_from_upload ⟨["name", "grade"], [[some "alice", some "90"]]⟩
      = Except.error "Excel中未找到学号列" ∧
    runApp wMd5 ⟨["name", "grade"], [[some "alice", some "90"]]⟩
        [⟨"123456789_hw.py", [1], 1⟩] [0] 0
      = Except.error "Excel中未找到学号列" :=
  claim_C8_no_id_column wMd5 [⟨"123456789_hw.py", [1], 1⟩] [0] 0
    ⟨["name", "grade"], [[some "alice", some "90"]]⟩ (by decide) (by decide)

/-- C9: a row whose id cell holds no 9-digit run leaves the roster unchanged
(silently skipped), and a row whose id cell yields `sid` makes the mapping
return that row's name for `sid` — the last occurrence wins. -/
theorem claim_C9_roster_rows (df : DF) (i : Nat)
    (rows : List (List (Option String))) (row : List (Option String)) :
    (extract_id (cellStr (row.getD i none)) = none →
      buildRoster df i (rows ++ [row]) = buildRoster df i rows) ∧
    (∀ sid, extract_id (cellStr (row.getD i none)) = some sid →
      (buildRoster df i (rows ++ [row])).lookup sid = some (rosterName df i row)) := by
  constructor
  · intro h
    unfold buildRoster
    rw [List.foldl_append]
    simp only [List.foldl_cons, List.foldl_nil]
    rw [show rosterStep df i (rows.foldl (rosterStep df i) []) row
        = rows.foldl (rosterStep df i) [] from by
      unfold rosterStep
      rw [h]]
  · intro sid h
    unfold buildRoster
    rw [List.foldl_append]
    simp only [List.foldl_cons, List.foldl_nil]
    rw [show rosterStep df i (rows.foldl (rosterStep df i) []) row
        = dictInsert (rows.foldl (rosterStep df i) []) sid (rosterName df i row) from by
      unfold rosterStep
      rw [h]]
    exact lookup_dictInsert_self _ _ _

/-- C9 witness: two rows extract the same id `123456789`; the built mapping
returns the later row's name, and a digit-free row changes nothing. -/
theorem claim_C9_roster_rows_witness :
    buildRoster ⟨["学号", "姓名"], []⟩ 0
        ([[some "123456789", some "X"], [some "123456789", some "Y"]] ++ [[some "no id", none]])
      = buildRoster ⟨["学号", "姓名"], []⟩ 0
          [[some "123456789", some "X"], [some "123456789", some "Y"]] ∧
    (buildRoster ⟨["学号", "姓名"], []⟩ 0
        ([[some "123456789", some "X"]] ++ [[some "123456789", some "Y"]])).lookup "123456789"
      = some (rosterName ⟨["学号", "姓名"], []⟩ 0 [some "123456789", some "Y"]) :=
  ⟨(claim_C9_roster_rows ⟨["学号", "姓名"], []⟩ 0
      [[some "123456789", some "X"], [some "123456789", some "Y"]]
      [some "no id", none]).1 (by decide),
   (claim_C9_roster_rows ⟨["学号", "姓名"], []⟩ 0
      [[some "123456789", some "X"]] [some "123456789", some "Y"]).2 "123456789" (by decide)⟩

end CheckHomework
